import Mathlib

/-!
Verification of the ImageTech_tools repository.

Shallow embedding of the two scripts, `extract_subject_info.py` and
`reconstruct_MEG.py`, together with proofs of the specification claims.
The Python functions are translated into executable Lean definitions:
csv dict rows become association lists, file contents become strings,
filesystem trees become inductive structures, and every fallible
operation returns an `Option`.
-/

namespace ImageTech

/-- A row of the participants table as produced by csv.DictReader: a
finite map from column names to string values, modelled as an
association list in which the first binding of a key wins, as in a
Python dict. -/
abbrev Row := List (String × String)

/-- row.get(k, "") of update_participants_tsv: the value bound to key
k, or the empty string when the key is absent. -/
def getD (row : Row) (k : String) : String :=
  match row.find? (fun p => p.1 == k) with
  | some p => p.2
  | none => ""

/-- Python dict assignment row[k] = v on the association-list model:
replaces the first binding of k, or appends a fresh binding. -/
def setK : Row → String → String → Row
  | [], k, v => [(k, v)]
  | p :: rest, k, v => if p.1 == k then (k, v) :: rest else p :: setK rest k v

/-- The fixed column list of update_participants_tsv
(extract_subject_info.py line 67). -/
def headers : List String := ["participant_id", "session_id", "sex", "weight", "age"]

/-- The match condition of the merge loop (extract_subject_info.py
lines 83-85): participant_id equals the incoming subject_id, and the
stored session_id equals the incoming one or is the "n/a" sentinel
while the incoming one is not. -/
def matchesRow (subject_id session_id : String) (row : Row) : Bool :=
  getD row "participant_id" == subject_id &&
    (getD row "session_id" == session_id ||
      (getD row "session_id" == "n/a" && session_id != "n/a"))

/-- The in-place overwrite performed on the first matching row
(extract_subject_info.py lines 86-89): session_id, sex, weight and age
are reassigned, participant_id is not touched. -/
def ovwRow (row : Row) (session_id sex weight age : String) : Row :=
  setK (setK (setK (setK row "session_id" session_id) "sex" sex) "weight" weight)
    "age" age

/-- The new row built when no existing row matches
(extract_subject_info.py lines 94-99): every header is first bound to
the empty string, then the five fields are assigned. -/
def newRow (subject_id session_id sex weight age : String) : Row :=
  setK (setK (setK (setK (setK (headers.map (fun h => (h, "")))
    "participant_id" subject_id) "session_id" session_id) "sex" sex)
    "weight" weight) "age" age

/-- The row-list transformation of update_participants_tsv
(extract_subject_info.py lines 78-100): scan for the first matching
row and overwrite it in place, breaking out of the loop; if no row
matched, append the new row at the end. -/
def mergeRows (subject_id session_id sex weight age : String) : List Row → List Row
  | [] => [newRow subject_id session_id sex weight age]
  | row :: rest =>
    if matchesRow subject_id session_id row
    then ovwRow row session_id sex weight age :: rest
    else row :: mergeRows subject_id session_id sex weight age rest

/-- clean_row of the write loop (extract_subject_info.py line 106):
the row restricted to the five declared columns, with absent columns
defaulting to the empty string. -/
def cleanRow (row : Row) : Row := headers.map (fun h => (h, getD row h))

def cleanRows (rows : List Row) : List Row := rows.map cleanRow

/-- One full run of update_participants_tsv at the row level: merge,
then the per-row cleaning applied by the writer. Reading the written
file back with csv.DictReader yields exactly these cleaned rows. -/
def mergeStep (subject_id session_id sex weight age : String) (rows : List Row) :
    List Row :=
  cleanRows (mergeRows subject_id session_id sex weight age rows)

/-- csv QUOTE_MINIMAL field encoding used by csv.DictWriter: a field
containing the tab delimiter, the quote character, or a line break is
wrapped in double quotes with inner quotes doubled; any other field is
written verbatim. -/
def serializeField (s : String) : String :=
  if s.data.any (fun c => c == '\t' || c == '"' || c == '\r' || c == '\n')
  then "\"" ++ String.mk (s.data.foldr
        (fun c acc => if c = '"' then '"' :: '"' :: acc else c :: acc) []) ++ "\""
  else s

/-- One output line of csv.DictWriter with delimiter '\t' and the
default '\r\n' line terminator: the five header fields of the row, in
header order. -/
def serializeRowLine (row : Row) : String :=
  String.intercalate "\t" (headers.map (fun h => serializeField (getD row h))) ++ "\r\n"

/-- writer.writeheader() output. -/
def headerLine : String :=
  String.intercalate "\t" (headers.map serializeField) ++ "\r\n"

/-- The whole file written by update_participants_tsv
(extract_subject_info.py lines 102-107): header line, then one line
per row built from the row's clean_row. -/
def writeContent (rows : List Row) : String :=
  headerLine ++ String.join (rows.map (fun r => serializeRowLine (cleanRow r)))

/-- The byte-order-mark handling of the read step
(extract_subject_info.py lines 72-74): read one character; if it is
the BOM, keep reading from position 1, otherwise seek back to 0. -/
def stripBOM (s : String) : String :=
  if s.data.head? = some '\uFEFF' then String.mk s.data.tail else s

/-- Whitespace stripped by Python's int() before parsing. -/
def isPySpace (c : Char) : Bool :=
  c == ' ' || c == '\t' || c == '\n' || c == '\r' || c == '\x0b' || c == '\x0c'

def pyStrip (cs : List Char) : List Char :=
  ((cs.dropWhile isPySpace).reverse.dropWhile isPySpace).reverse

def digitVal (c : Char) : Nat := c.toNat - 48

/-- Continuation of Python's integer digit grammar after the first
digit: digits, with single underscores allowed between digits only. -/
def digitsGo : List Char → Nat → Option Nat
  | [], acc => some acc
  | '_' :: c :: rest, acc =>
    if c.isDigit then digitsGo rest (acc * 10 + digitVal c) else none
  | ['_'], _ => none
  | c :: rest, acc =>
    if c.isDigit then digitsGo rest (acc * 10 + digitVal c) else none

/-- The digitpart production of Python's integer literal grammar:
a digit followed by digits with optional single underscores. -/
def digitpart : List Char → Option Nat
  | c :: rest => if c.isDigit then digitsGo rest (digitVal c) else none
  | [] => none

/-- Python's int(str) on ASCII input: strip surrounding whitespace
(int() strips exactly these six ASCII characters; the control
characters \x1c-\x1f are not stripped), accept one optional sign,
then the digitpart grammar; any other input raises ValueError,
modelled as none. CPython additionally accepts non-ASCII Unicode
decimal digits and strips some non-ASCII whitespace, which this model
does not cover - statements about parse FAILURE are therefore made
only for ASCII strings, while a some result is faithful for every
input. -/
def pyInt? (s : String) : Option Int :=
  match pyStrip s.data with
  | '+' :: rest => (digitpart rest).map (fun n => (n : Int))
  | '-' :: rest => (digitpart rest).map (fun n => -(n : Int))
  | t => (digitpart t).map (fun n => (n : Int))

/-- Unit-suffix stripping of the explicit DICOM age
(extract_subject_info.py lines 44-45): drop the last character when it
is Y, M or D. -/
def stripAgeUnit (s : String) : String :=
  match s.data.getLast? with
  | some c => if c = 'Y' ∨ c = 'M' ∨ c = 'D' then String.mk s.data.dropLast else s
  | none => s

/-- Normalization of a non-empty explicit age string
(extract_subject_info.py lines 43-49): strip the unit suffix, then
reformat through int() to drop leading zeros, keeping the stripped
string when int() fails. -/
def ageFromExplicit (s : String) : String :=
  let s2 := stripAgeUnit s
  match pyInt? s2 with
  | some n => toString n
  | none => s2

def isLeapYear (y : Nat) : Bool :=
  (y % 4 == 0 && y % 100 != 0) || y % 400 == 0

def daysInMonth (y m : Nat) : Nat :=
  if m = 2 then (if isLeapYear y then 29 else 28)
  else if m = 4 ∨ m = 6 ∨ m = 9 ∨ m = 11 then 30
  else 31

/-- The [0-9] character class (the ASCII fragment of the regex \d). -/
def isAsciiDigit (c : Char) : Bool := 48 ≤ c.toNat && c.toNat ≤ 57

/-- The day directive %d of CPython _strptime, whose regex is the
ordered alternation 3[0-1] | [1-2]\d | 0[1-9] | [1-9] | " "[1-9]
(the last alternative accepts a blank-padded single digit): the first
alternative that matches wins, returning the day value and the
remaining input. -/
def parseDay : List Char → Option (Nat × List Char)
  | c1 :: c2 :: rest2 =>
    if c1 = '3' ∧ (c2 = '0' ∨ c2 = '1') then some (30 + digitVal c2, rest2)
    else if (c1 = '1' ∨ c1 = '2') ∧ isAsciiDigit c2 then
      some (digitVal c1 * 10 + digitVal c2, rest2)
    else if c1 = '0' ∧ (49 ≤ c2.toNat ∧ c2.toNat ≤ 57) then
      some (digitVal c2, rest2)
    else if 49 ≤ c1.toNat ∧ c1.toNat ≤ 57 then some (digitVal c1, c2 :: rest2)
    else if c1 = ' ' ∧ (49 ≤ c2.toNat ∧ c2.toNat ≤ 57) then
      some (digitVal c2, rest2)
    else none
  | [c1] => if 49 ≤ c1.toNat ∧ c1.toNat ≤ 57 then some (digitVal c1, []) else none
  | [] => none

/-- The month directive %m followed by %d, with the regex engine's
backtracking: the month alternation 1[0-2] | 0[1-9] | [1-9] is tried
in order, and when a two-digit month leaves no parsable day the engine
falls back to the one-digit month reading. -/
def parseMD (cs : List Char) : Option (Nat × Nat × List Char) :=
  let single : Option (Nat × Nat × List Char) :=
    match cs with
    | c1 :: rest1 =>
      if 49 ≤ c1.toNat ∧ c1.toNat ≤ 57 then
        match parseDay rest1 with
        | some (d, r) => some (digitVal c1, d, r)
        | none => none
      else none
    | [] => none
  match cs with
  | c1 :: c2 :: rest2 =>
    let two : Option Nat :=
      if c1 = '1' ∧ (48 ≤ c2.toNat ∧ c2.toNat ≤ 50) then some (10 + digitVal c2)
      else if c1 = '0' ∧ (49 ≤ c2.toNat ∧ c2.toNat ≤ 57) then some (digitVal c2)
      else none
    match two with
    | some m =>
      match parseDay rest2 with
      | some (d, r) => some (m, d, r)
      | none => single
    | none => single
  | _ => single

/-- datetime.strptime(s, "%Y%m%d") on ASCII input, following CPython's
_strptime: %Y is exactly four digits, then %m and %d match one or two
digits each per their ordered alternations (so 6- and 7-character
dates such as "2024315" parse too), any unconverted trailing input is
a ValueError, and the datetime constructor then requires year at least
1 and a day that exists in the month, leap years included; none models
ValueError. CPython's \d also matches non-ASCII Unicode decimal
digits, which this model does not cover - statements about parse
FAILURE are therefore made only for ASCII strings. -/
def parseDateYmd (s : String) : Option (Nat × Nat × Nat) :=
  match s.data with
  | y1 :: y2 :: y3 :: y4 :: rest =>
    if isAsciiDigit y1 && isAsciiDigit y2 && isAsciiDigit y3 && isAsciiDigit y4 then
      let y := digitVal y1 * 1000 + digitVal y2 * 100 + digitVal y3 * 10 + digitVal y4
      match parseMD rest with
      | some (m, d, leftover) =>
        if leftover = [] ∧ 1 ≤ y ∧ d ≤ daysInMonth y m
        then some (y, m, d) else none
      | none => none
    else none
  | _ => none

/-- Every character of the string is ASCII. Used to scope the
parse-failure statements to the fragment of Python's int() and
strptime() that this development models faithfully. -/
def isAsciiStr (s : String) : Bool := s.data.all (fun c => c.toNat ≤ 127)

/-- Fallback age from dates (extract_subject_info.py lines 54-60):
study year minus birth year, decremented when the study (month, day)
pair precedes the birth (month, day) pair; any parse failure is the
"n/a" sentinel. -/
def ageFromDates (birth study : String) : String :=
  match parseDateYmd birth, parseDateYmd study with
  | some (yb, mb, db), some (ys, ms, ds) =>
    toString ((ys : Int) - (yb : Int) -
      (if ms < mb ∨ (ms = mb ∧ ds < db) then 1 else 0))
  | _, _ => "n/a"

/-- The header fields of a DICOM file that extract_fields reads; each
is present or absent, and string-valued (weight after its str()
coercion). -/
structure Dicom where
  sex : Option String
  weight : Option String
  age : Option String
  studyDate : Option String
  birthDate : Option String

/-- The age branch of extract_fields (extract_subject_info.py lines
42-62): explicit non-empty age field wins, otherwise the date
fallback when both date elements are present, otherwise "n/a". -/
def computeAge (d : Dicom) : String :=
  match d.age with
  | some a =>
    if a ≠ "" then ageFromExplicit a
    else match d.studyDate, d.birthDate with
      | some sdt, some bdt => ageFromDates bdt sdt
      | _, _ => "n/a"
  | none =>
    match d.studyDate, d.birthDate with
    | some sdt, some bdt => ageFromDates bdt sdt
    | _, _ => "n/a"

/-- extract_fields (extract_subject_info.py lines 16-64): a failed
read (pydicom raising) is the none case and yields the sentinel
triple; otherwise sex and weight default to "n/a" when absent or
empty, and age follows computeAge. -/
def extractFields : Option Dicom → String × String × String
  | none => ("n/a", "n/a", "n/a")
  | some d =>
    let sex := match d.sex with
      | some s => if s = "" then "n/a" else s
      | none => "n/a"
    let weight := match d.weight with
      | some w0 => if w0 = "" then "n/a" else w0
      | none => "n/a"
    (sex, weight, computeAge d)

def upperStr (s : String) : String := String.mk (s.data.map Char.toUpper)

def lowerStr (s : String) : String := String.mk (s.data.map Char.toLower)

/-- Python str.replace on character lists, fuelled for structural
recursion: replace every non-overlapping occurrence of pat, scanning
left to right (pat is never empty in this development). Every step
consumes at least one character, so any fuel of at least the list
length computes the full replacement. -/
def replFuel (pat rep : List Char) : Nat → List Char → List Char
  | _, [] => []
  | 0, cs => cs
  | fuel + 1, c :: cs =>
    if pat ≠ [] ∧ pat.isPrefixOf (c :: cs)
    then rep ++ replFuel pat rep fuel (cs.drop (pat.length - 1))
    else c :: replFuel pat rep fuel cs

def replList (pat rep cs : List Char) : List Char :=
  replFuel pat rep cs.length cs

def replaceAll (s pat rep : String) : String :=
  String.mk (replList pat.data rep.data s.data)

/-- The anchored case-insensitive prefix removal re.sub applies in
normalize_subject_id (reconstruct_MEG.py line 70): a leading
"sub-"/"sub_" (any case of the letters) is dropped once. -/
def stripSubPrefix : List Char → List Char
  | c1 :: c2 :: c3 :: c4 :: rest =>
    if (c1.toLower = 's' ∧ c2.toLower = 'u' ∧ c3.toLower = 'b') ∧ (c4 = '-' ∨ c4 = '_')
    then rest else c1 :: c2 :: c3 :: c4 :: rest
  | cs => cs

/-- normalize_subject_id (reconstruct_MEG.py lines 63-73): strip a
leading sub- / sub_ prefix case-insensitively, delete every remaining
dash and underscore, upper-case. -/
def normalize_subject_id (s : String) : String :=
  String.mk (((stripSubPrefix s.data).filter
    (fun c => !(c == '-' || c == '_'))).map Char.toUpper)

/-- The inline normalization used to build the raw copy path
(reconstruct_MEG.py line 135):
subject_dir.name.replace('_', '').replace('sub-', '').replace('sub_', '').upper(). -/
def copyPathSubjectId (name : String) : String :=
  upperStr (replaceAll (replaceAll (replaceAll name "_" "") "sub-" "") "sub_" "")

/-- pathlib PurePath.suffix on a file name: the part from the last dot
on, unless that dot is the first or last character. -/
def pathSuffix (name : String) : String :=
  let cs := name.data
  match cs.reverse.findIdx? (fun c => c == '.') with
  | some j =>
    let i := cs.length - 1 - j
    if 0 < i ∧ i < cs.length - 1 then String.mk (cs.drop i) else ""
  | none => ""

/-- pathlib PurePath.stem on a file name: the name with its suffix
removed. -/
def pathStem (name : String) : String :=
  let cs := name.data
  match cs.reverse.findIdx? (fun c => c == '.') with
  | some j =>
    let i := cs.length - 1 - j
    if 0 < i ∧ i < cs.length - 1 then String.mk (cs.take i) else name
  | none => name

/-- Python's substring test (needle in hay). -/
def containsSub (needle : List Char) : List Char → Bool
  | [] => needle.isEmpty
  | c :: t => needle.isPrefixOf (c :: t) || containsSub needle t

/-- A file in a session folder, with its content. -/
structure FSFile where
  name : String
  content : String
deriving DecidableEq

/-- A session subdirectory of a subject directory. -/
structure SessionDir where
  name : String
  files : List FSFile
deriving DecidableEq

/-- A subject directory: its name and its session subdirectories. -/
structure SubjectDir where
  name : String
  sessions : List SessionDir
deriving DecidableEq

/-- subject_has_invalid_files (reconstruct_MEG.py lines 75-92): true
when some file of the session whose (lower-cased pathlib) suffix is
".fif" or ".fif.gz" has a stem that does not contain the expected
normalized subject ID, both sides upper-cased. -/
def subject_has_invalid_files (session : SessionDir) (subjDirName : String) : Bool :=
  let expected := normalize_subject_id subjDirName
  session.files.any (fun f =>
    (lowerStr (pathSuffix f.name) == ".fif" || lowerStr (pathSuffix f.name) == ".fif.gz") &&
    !containsSub (upperStr expected).data (upperStr (pathStem f.name)).data)

/-- The pre-check loop (reconstruct_MEG.py lines 94-102): the subject
is invalid as soon as any of its session folders has an invalid file;
the scan stops at the first such session. -/
def precheckInvalid (subj : SubjectDir) : Bool :=
  subj.sessions.any (fun s => subject_has_invalid_files s subj.name)

/-- session_folder.glob("*.fif") (reconstruct_MEG.py line 129). -/
def globFif (files : List FSFile) : List FSFile :=
  files.filter (fun f => ".fif".data.isSuffixOf f.name.data)

/-- fname preprocessing of the conversion loop (reconstruct_MEG.py
line 167): lower-case, then str.replace of ".fif" and of ".fif.gz"
by the empty string. -/
def prepFname (name : String) : String :=
  replaceAll (replaceAll (lowerStr name) ".fif" "") ".fif.gz" ""

def isLowerAlpha (c : Char) : Bool := 97 ≤ c.toNat && c.toNat ≤ 122

def isDigitChar (c : Char) : Bool := 48 ≤ c.toNat && c.toNat ≤ 57

def isAlnumLower (c : Char) : Bool := isLowerAlpha c || isDigitChar c

def isSep (c : Char) : Bool := c == '-' || c == '_'

/-- The deterministic core of the filename regex (reconstruct_MEG.py
line 171) after the optional prefix:
([a-z0-9]+)[-_]([a-z]+[0-9]*)[_-]raw, matched greedily. Since the
character classes are disjoint from the separators, the greedy match
takes the maximal runs and never needs to backtrack inside the core. -/
def matchCore (cs : List Char) : Option (List Char × List Char) :=
  let g1 := cs.takeWhile isAlnumLower
  let r1 := cs.dropWhile isAlnumLower
  if g1.isEmpty then none else
  match r1 with
  | c :: r2 =>
    if isSep c then
      let a := r2.takeWhile isLowerAlpha
      let r3 := r2.dropWhile isLowerAlpha
      if a.isEmpty then none else
      let ds := r3.takeWhile isDigitChar
      let r4 := r3.dropWhile isDigitChar
      match r4 with
      | c2 :: r5 =>
        if isSep c2 && ['r', 'a', 'w'].isPrefixOf r5
        then some (g1, a ++ ds) else none
      | [] => none
    else none
  | [] => none

/-- re.match of pattern (?:sub[-_]?)? followed by the core: the
optional prefix group is greedy, so the engine first tries to consume
"sub" plus a separator, then "sub" alone, and only then no prefix at
all, succeeding with the first alternative whose continuation
matches. -/
def parseRegex (cs : List Char) : Option (List Char × List Char) :=
  if ['s', 'u', 'b'].isPrefixOf cs then
    let rest := cs.drop 3
    match rest with
    | c :: rest2 =>
      if isSep c then
        match matchCore rest2 with
        | some r => some r
        | none =>
          match matchCore rest with
          | some r => some r
          | none => matchCore cs
      else
        match matchCore rest with
        | some r => some r
        | none => matchCore cs
    | [] =>
      match matchCore rest with
      | some r => some r
      | none => matchCore cs
  else matchCore cs

def natOfDigits (ds : List Char) : Nat :=
  ds.foldl (fun acc c => acc * 10 + digitVal c) 0

/-- The task/run split regex ([a-z]+)(\d*) applied to the captured
group (reconstruct_MEG.py lines 181-184): maximal alphabetic prefix as
the task, maximal following digit run as the run, absent (None) when
there are no digits. -/
def splitTaskRun (cs : List Char) : Option (List Char × Option Nat) :=
  let t := cs.takeWhile isLowerAlpha
  if t.isEmpty then none
  else
    let ds := (cs.dropWhile isLowerAlpha).takeWhile isDigitChar
    some (t, if ds.isEmpty then none else some (natOfDigits ds))

/-- The full per-file parse of the conversion loop (reconstruct_MEG.py
lines 166-187): preprocess the name, run the subject/task regex, then
split task and run; the subject token is upper-cased. -/
def parsePrepped (cs : List Char) : Option (String × String × Option Nat) :=
  match parseRegex cs with
  | some (g1, g2) =>
    match splitTaskRun g2 with
    | some (t, r) => some (upperStr (String.mk g1), (String.mk t, r))
    | none => none
  | none => none

def parseFromFilename (name : String) : Option (String × String × Option Nat) :=
  parsePrepped (prepFname (lowerStr name)).data

/-- The running reassignment of the loop variable subject_id inside
the conversion loop (reconstruct_MEG.py line 174): each successfully
parsed filename overwrites it with the upper-cased captured subject
token; files that fail to parse leave it unchanged. -/
def lastParsedSubject (init : String) (fifNames : List String) : String :=
  fifNames.foldl (fun acc nm =>
    match parseRegex (prepFname (lowerStr nm)).data with
    | some (g1, _) => upperStr (String.mk g1)
    | none => acc) init

/-- The upper-cased subject tokens of the filenames that the regex
parses, in order. -/
def parsedSubjects (fifNames : List String) : List String :=
  fifNames.filterMap (fun nm =>
    (parseRegex (prepFname (lowerStr nm)).data).map
      (fun g => upperStr (String.mk g.1)))

/-- The sub-<ID>/ses-<ID> paths a session's processing addresses: the
raw copy directory is built from the directory-name normalization
before the conversion loop runs (reconstruct_MEG.py lines 135-136),
while the relocate step (line 222) and the participants call (lines
250-257) reuse the loop variable subject_id after the conversion loop
has possibly reassigned it. Loading of recording files by the external
reader is modelled as always succeeding. -/
structure SessionPaths where
  rawSubjSesDir : String
  relocSubjSesDir : String
  participantsSubjectArg : String
  participantsSessionArg : String
deriving DecidableEq

def sessionPaths (project dirName : String) (doBids : Bool) (ses : SessionDir) :
    SessionPaths :=
  let sessionId := "20" ++ ses.name
  let copyId := copyPathSubjectId dirName
  let fifNames := (globFif ses.files).map (fun f => f.name)
  let finalId := if doBids then lastParsedSubject copyId fifNames else copyId
  { rawSubjSesDir := "/data/storage/projects/" ++ project ++ "/meg/raw/sub-"
      ++ copyId ++ "/ses-" ++ sessionId
    relocSubjSesDir := "/data/storage/projects/" ++ project
      ++ "/meg/reconstructed/sub-" ++ finalId ++ "/ses-" ++ sessionId
    participantsSubjectArg := "sub-" ++ finalId
    participantsSessionArg := "ses-" ++ sessionId }

def hasFileNamed (dir : List FSFile) (n : String) : Bool :=
  dir.any (fun f => f.name == n)

def lookupFile (dir : List FSFile) (n : String) : Option FSFile :=
  dir.find? (fun f => f.name == n)

/-- The per-session copy loop (reconstruct_MEG.py lines 140-144): for
each file of the session folder, copy it into the destination
directory only when no file of that name exists there yet. The
destination directory is modelled as its list of files. -/
def copyStep (dest : List FSFile) (src : List FSFile) : List FSFile :=
  src.foldl (fun d f => if hasFileNamed d f.name then d else d ++ [f]) dest

/-- Observable filesystem effects of one run of the script, as emitted
in program order. -/
inductive Effect where
  | mkdirBase (path : String)
  | mkdirRawSubjSes (path : String)
  | copyInto (rawDir fname : String)
  | updateParticipants (subjectArg sessionArg : String)
deriving DecidableEq

/-- Effects of processing one session (reconstruct_MEG.py lines
123-264): skip entirely when glob("*.fif") is empty; otherwise create
the raw subject/session directory, copy the session's files into it,
and invoke the participants update with the session's subject/session
arguments. Copies are emitted as attempts; their no-overwrite
behaviour is modelled by copyStep. -/
def sessionEffects (project dirName : String) (doBids : Bool) (ses : SessionDir) :
    List Effect :=
  let fifs := globFif ses.files
  if fifs.isEmpty then []
  else
    let p := sessionPaths project dirName doBids ses
    Effect.mkdirRawSubjSes p.rawSubjSesDir ::
      (ses.files.map (fun f => Effect.copyInto p.rawSubjSesDir f.name) ++
        [Effect.updateParticipants p.participantsSubjectArg p.participantsSessionArg])

/-- Effects of the whole script on one subject directory
(reconstruct_MEG.py lines 94-264): the pre-check runs first and a
failing pre-check exits before the base output directories are
created, so a skipped subject produces no effect at all. -/
def runSubject (project : String) (doBids : Bool) (subj : SubjectDir) : List Effect :=
  if precheckInvalid subj then []
  else
    Effect.mkdirBase ("/data/storage/projects/" ++ project ++ "/meg/reconstructed") ::
      Effect.mkdirBase ("/data/storage/projects/" ++ project ++ "/meg/raw") ::
      (subj.sessions.map (sessionEffects project subj.name doBids)).flatten

end ImageTech

namespace ImageTech

theorem getD_nil (k : String) : getD [] k = "" := rfl

theorem getD_cons (p : String × String) (rest : Row) (k : String) :
    getD (p :: rest) k = if p.1 = k then p.2 else getD rest k := by
  unfold getD
  by_cases h : p.1 = k
  · rw [List.find?_cons_of_pos _ (by simpa using h)]
    simp [h]
  · rw [List.find?_cons_of_neg _ (by simpa using h)]
    simp [h]

theorem getD_setK_self (row : Row) (k v : String) : getD (setK row k v) k = v := by
  induction row with
  | nil => simp [setK, getD_cons, getD_nil]
  | cons p rest ih =>
    by_cases h : p.1 = k
    · simp [setK, h, getD_cons]
    · simp [setK, h, getD_cons, ih]

theorem getD_setK_ne (row : Row) (k v k' : String) (h : k' ≠ k) :
    getD (setK row k v) k' = getD row k' := by
  induction row with
  | nil => simp [setK, getD_cons, getD_nil, Ne.symm h]
  | cons p rest ih =>
    by_cases hp : p.1 = k
    · simp [setK, hp, getD_cons, Ne.symm h]
    · simp [setK, hp, getD_cons, ih]

theorem getD_ovwRow_pid (row : Row) (ses sex w a : String) :
    getD (ovwRow row ses sex w a) "participant_id" = getD row "participant_id" := by
  unfold ovwRow
  rw [getD_setK_ne _ _ _ _ (by decide), getD_setK_ne _ _ _ _ (by decide),
    getD_setK_ne _ _ _ _ (by decide), getD_setK_ne _ _ _ _ (by decide)]

theorem getD_ovwRow_session (row : Row) (ses sex w a : String) :
    getD (ovwRow row ses sex w a) "session_id" = ses := by
  unfold ovwRow
  rw [getD_setK_ne _ _ _ _ (by decide), getD_setK_ne _ _ _ _ (by decide),
    getD_setK_ne _ _ _ _ (by decide), getD_setK_self]

theorem getD_ovwRow_sex (row : Row) (ses sex w a : String) :
    getD (ovwRow row ses sex w a) "sex" = sex := by
  unfold ovwRow
  rw [getD_setK_ne _ _ _ _ (by decide), getD_setK_ne _ _ _ _ (by decide),
    getD_setK_self]

theorem getD_ovwRow_weight (row : Row) (ses sex w a : String) :
    getD (ovwRow row ses sex w a) "weight" = w := by
  unfold ovwRow
  rw [getD_setK_ne _ _ _ _ (by decide), getD_setK_self]

theorem getD_ovwRow_age (row : Row) (ses sex w a : String) :
    getD (ovwRow row ses sex w a) "age" = a := by
  unfold ovwRow
  rw [getD_setK_self]

theorem newRow_eq (sid ses sex w a : String) :
    newRow sid ses sex w a =
      [("participant_id", sid), ("session_id", ses), ("sex", sex),
       ("weight", w), ("age", a)] := by
  simp [newRow, headers, setK]

/-- C1. The participants-table merge: when some row matches the
incoming record (equal participant_id, and equal session_id or the
stored "n/a" upgraded by a real one), the first such row — here, the
row after a prefix of non-matching rows — is overwritten in place
(session_id, sex, weight, age set to the new values, participant_id
unchanged), all other rows survive untouched in order, and the row
count is preserved; when no row matches, exactly the one new fully
populated row is appended. -/
theorem merge_first_match_update_or_append
    (rows : List Row) (sid ses sex w a : String) :
    (∀ pre row post, rows = pre ++ row :: post →
      (∀ r ∈ pre, matchesRow sid ses r = false) →
      matchesRow sid ses row = true →
      mergeRows sid ses sex w a rows
          = pre ++ ovwRow row ses sex w a :: post ∧
        (mergeRows sid ses sex w a rows).length = rows.length ∧
        getD (ovwRow row ses sex w a) "participant_id"
          = getD row "participant_id" ∧
        getD (ovwRow row ses sex w a) "session_id" = ses ∧
        getD (ovwRow row ses sex w a) "sex" = sex ∧
        getD (ovwRow row ses sex w a) "weight" = w ∧
        getD (ovwRow row ses sex w a) "age" = a) ∧
    ((∀ r ∈ rows, matchesRow sid ses r = false) →
      mergeRows sid ses sex w a rows = rows ++ [newRow sid ses sex w a] ∧
        newRow sid ses sex w a
          = [("participant_id", sid), ("session_id", ses), ("sex", sex),
             ("weight", w), ("age", a)]) := by
  constructor
  · intro pre row post hsplit hpre hrow
    subst hsplit
    have hmain : mergeRows sid ses sex w a (pre ++ row :: post)
        = pre ++ ovwRow row ses sex w a :: post := by
      induction pre with
      | nil => simp [mergeRows, hrow]
      | cons q qre ih =>
        have hq : matchesRow sid ses q = false := hpre q (by simp)
        have ih' := ih (fun r hr => hpre r (by simp [hr]))
        simp [mergeRows, hq, ih']
    refine ⟨hmain, ?_, getD_ovwRow_pid _ _ _ _ _, getD_ovwRow_session _ _ _ _ _,
      getD_ovwRow_sex _ _ _ _ _, getD_ovwRow_weight _ _ _ _ _,
      getD_ovwRow_age _ _ _ _ _⟩
    simp [hmain]
  · intro hall
    refine ⟨?_, newRow_eq _ _ _ _ _⟩
    induction rows with
    | nil => simp [mergeRows]
    | cons q qre ih =>
      have hq : matchesRow sid ses q = false := hall q (by simp)
      have ih' := ih (fun r hr => hall r (by simp [hr]))
      simp [mergeRows, hq, ih']

theorem cleanRow_eq (row : Row) :
    cleanRow row =
      [("participant_id", getD row "participant_id"),
       ("session_id", getD row "session_id"), ("sex", getD row "sex"),
       ("weight", getD row "weight"), ("age", getD row "age")] := rfl

theorem getD_cleanRow (row : Row) (k : String) (h : k ∈ headers) :
    getD (cleanRow row) k = getD row k := by
  rw [cleanRow_eq]
  fin_cases h <;> simp [getD_cons]

theorem matchesRow_cleanRow (sid ses : String) (row : Row) :
    matchesRow sid ses (cleanRow row) = matchesRow sid ses row := by
  unfold matchesRow
  rw [getD_cleanRow _ _ (by decide), getD_cleanRow _ _ (by decide)]

theorem cleanRow_idem (row : Row) : cleanRow (cleanRow row) = cleanRow row := by
  rw [cleanRow_eq (cleanRow row), getD_cleanRow _ _ (by decide),
    getD_cleanRow _ _ (by decide), getD_cleanRow _ _ (by decide),
    getD_cleanRow _ _ (by decide), getD_cleanRow _ _ (by decide)]
  exact (cleanRow_eq row).symm

theorem cleanRows_idem (rows : List Row) : cleanRows (cleanRows rows) = cleanRows rows := by
  simp [cleanRows, Function.comp, cleanRow_idem]

theorem cleanRow_ovwRow (row : Row) (ses sex w a : String) :
    cleanRow (ovwRow row ses sex w a) =
      [("participant_id", getD row "participant_id"), ("session_id", ses),
       ("sex", sex), ("weight", w), ("age", a)] := by
  rw [cleanRow_eq, getD_ovwRow_pid, getD_ovwRow_session, getD_ovwRow_sex,
    getD_ovwRow_weight, getD_ovwRow_age]

theorem cleanRow_newRow (sid ses sex w a : String) :
    cleanRow (newRow sid ses sex w a) = newRow sid ses sex w a := by
  rw [newRow_eq, cleanRow_eq]
  simp [getD_cons, newRow_eq]

theorem matchesRow_self_pid (sid ses : String) (row : Row)
    (hpid : getD row "participant_id" = sid) (hses : getD row "session_id" = ses) :
    matchesRow sid ses row = true := by
  simp [matchesRow, hpid, hses]

/-- C9. The participants-table merge is idempotent: the table content
written by a second run with the identical record (which reads back
exactly the cleaned rows the first run wrote) equals the content the
first run wrote. -/
theorem getD_newRow_pid (sid ses sex w a : String) :
    getD (newRow sid ses sex w a) "participant_id" = sid := by
  rw [newRow_eq]
  simp [getD_cons]

theorem getD_newRow_session (sid ses sex w a : String) :
    getD (newRow sid ses sex w a) "session_id" = ses := by
  rw [newRow_eq]
  simp [getD_cons]

theorem matchesRow_ovwRow (sid ses sex w a : String) (row : Row)
    (hr : matchesRow sid ses row = true) :
    matchesRow sid ses (ovwRow row ses sex w a) = true := by
  have hpid : (getD row "participant_id" == sid) = true := by
    unfold matchesRow at hr
    rw [Bool.and_eq_true] at hr
    exact hr.1
  simp [matchesRow, getD_ovwRow_pid, getD_ovwRow_session, hpid]

theorem cleanRow_ovwRow_cleanRow_ovwRow (row : Row) (ses sex w a : String) :
    cleanRow (ovwRow (cleanRow (ovwRow row ses sex w a)) ses sex w a)
      = cleanRow (ovwRow row ses sex w a) := by
  rw [cleanRow_ovwRow (cleanRow (ovwRow row ses sex w a)),
    getD_cleanRow _ _ (by decide), getD_ovwRow_pid, cleanRow_ovwRow]

theorem mergeStep_idem (rows : List Row) (sid ses sex w a : String) :
    mergeStep sid ses sex w a (mergeStep sid ses sex w a rows)
      = mergeStep sid ses sex w a rows := by
  induction rows with
  | nil =>
    have h1 : mergeStep sid ses sex w a [] = [newRow sid ses sex w a] := by
      simp [mergeStep, mergeRows, cleanRows, cleanRow_newRow]
    rw [h1]
    have hm : matchesRow sid ses (newRow sid ses sex w a) = true :=
      matchesRow_self_pid _ _ _ (getD_newRow_pid _ _ _ _ _)
        (getD_newRow_session _ _ _ _ _)
    simp only [mergeStep, mergeRows, hm, if_true, cleanRows, List.map_cons,
      List.map_nil]
    rw [cleanRow_ovwRow, getD_newRow_pid]
    exact congrArg (· :: []) (newRow_eq sid ses sex w a).symm
  | cons r rs ih =>
    by_cases hr : matchesRow sid ses r = true
    · have h1 : mergeStep sid ses sex w a (r :: rs)
          = cleanRow (ovwRow r ses sex w a) :: cleanRows rs := by
        simp [mergeStep, mergeRows, hr, cleanRows]
      rw [h1]
      have hm2 : matchesRow sid ses (cleanRow (ovwRow r ses sex w a)) = true := by
        rw [matchesRow_cleanRow]
        exact matchesRow_ovwRow sid ses sex w a r hr
      simp only [mergeStep, mergeRows, hm2, if_true, cleanRows, List.map_cons]
      rw [cleanRow_ovwRow_cleanRow_ovwRow]
      exact congrArg _ (by simpa [cleanRows] using cleanRows_idem rs)
    · have hrf : matchesRow sid ses r = false := by
        cases h : matchesRow sid ses r
        · rfl
        · exact absurd h hr
      have h1 : mergeStep sid ses sex w a (r :: rs)
          = cleanRow r :: mergeStep sid ses sex w a rs := by
        simp [mergeStep, mergeRows, hrf, cleanRows]
      rw [h1]
      have hm2 : matchesRow sid ses (cleanRow r) = false := by
        rw [matchesRow_cleanRow]
        exact hrf
      simp only [mergeStep, mergeRows, hm2, Bool.false_eq_true, if_false,
        cleanRows, List.map_cons]
      rw [cleanRow_idem]
      exact congrArg _ (by simpa [mergeStep, cleanRows] using ih)

theorem writeContent_eq_cleanRows (rows : List Row) :
    writeContent rows
      = headerLine ++ String.join ((cleanRows rows).map serializeRowLine) := by
  simp [writeContent, cleanRows, List.map_map, Function.comp_def]

/-- C9. The participants-table merge is idempotent: the table content
written by a second run with the identical record (the second run
reads back exactly the cleaned rows written by the first) equals the
content written by the first run. -/
theorem merge_idempotent (rows : List Row) (sid ses sex w a : String) :
    writeContent (mergeRows sid ses sex w a (mergeStep sid ses sex w a rows))
      = writeContent (mergeRows sid ses sex w a rows) := by
  rw [writeContent_eq_cleanRows, writeContent_eq_cleanRows]
  have k1 : cleanRows (mergeRows sid ses sex w a (mergeStep sid ses sex w a rows))
      = mergeStep sid ses sex w a (mergeStep sid ses sex w a rows) := rfl
  have k2 : cleanRows (mergeRows sid ses sex w a rows)
      = mergeStep sid ses sex w a rows := rfl
  rw [k1, k2, mergeStep_idem]

theorem cleanRow_keys (row : Row) : (cleanRow row).map Prod.fst = headers := by
  rw [cleanRow_eq]
  rfl

theorem headerLine_eq :
    headerLine = "participant_id\tsession_id\tsex\tweight\tage\r\n" := by
  decide

theorem stripBOM_of_bom (s : String) : stripBOM ("\uFEFF" ++ s) = s := by
  unfold stripBOM
  rw [String.data_append]
  show (if ('\uFEFF' :: s.data).head? = some '\uFEFF' then
      String.mk ('\uFEFF' :: s.data).tail else _) = s
  simp

/-- C10. Shape of the written participants table: every written row
has exactly the five declared columns in order (extra pre-existing
columns dropped, missing ones defaulted to empty), the output starts
with the tab-delimited header line and carries no byte-order mark
(reading it back strips nothing), while a leading byte-order mark in a
pre-existing file is skipped by the read step and a file without one
is read from the start. -/
theorem participants_write_shape (rows : List Row) (sid ses sex w a : String) :
    (∀ r ∈ cleanRows (mergeRows sid ses sex w a rows), r.map Prod.fst = headers) ∧
    (∃ t, writeContent (mergeRows sid ses sex w a rows)
        = "participant_id\tsession_id\tsex\tweight\tage\r\n" ++ t) ∧
    stripBOM (writeContent (mergeRows sid ses sex w a rows))
      = writeContent (mergeRows sid ses sex w a rows) ∧
    (∀ s : String, stripBOM ("\uFEFF" ++ s) = s) ∧
    (∀ s : String, s.data.head? ≠ some '\uFEFF' → stripBOM s = s) := by
  refine ⟨?_, ?_, ?_, stripBOM_of_bom, ?_⟩
  · intro r hr
    rcases List.mem_map.mp hr with ⟨r0, _, hr0⟩
    rw [← hr0]
    exact cleanRow_keys r0
  · refine ⟨String.join ((mergeRows sid ses sex w a rows).map
      (fun r => serializeRowLine (cleanRow r))), ?_⟩
    rw [writeContent, headerLine_eq]
  · have hhead : (writeContent (mergeRows sid ses sex w a rows)).data.head? = some 'p' := by
      rw [writeContent, String.data_append, headerLine_eq]
      rfl
    unfold stripBOM
    rw [hhead]
    simp
  · intro s hs
    unfold stripBOM
    simp [hs]

/-- C10 witness: merging one record into an empty table and writing it
out yields exactly the five columns, and a BOM-prefixed read of the
literal "x" drops the BOM. -/
theorem participants_write_shape_inst :
    (cleanRow (newRow "sub-A" "ses-1" "M" "70" "30")).map Prod.fst = headers ∧
    stripBOM ("\uFEFF" ++ "x") = "x" := by
  refine ⟨?_, (participants_write_shape [] "sub-A" "ses-1" "M" "70" "30").2.2.2.1 "x"⟩
  have h := (participants_write_shape [] "sub-A" "ses-1" "M" "70" "30").1
    (cleanRow (newRow "sub-A" "ses-1" "M" "70" "30")) (by simp [mergeRows, cleanRows])
  exact h

/-- C1 witness: a concrete table whose first row is a placeholder
"n/a" session for the subject; the merge upgrades it in place. -/
theorem merge_first_match_update_or_append_inst :
    mergeRows "sub-B" "ses-2" "F" "60" "31"
        [[("participant_id", "sub-B"), ("session_id", "n/a"),
          ("sex", ""), ("weight", ""), ("age", "")]]
      = [[("participant_id", "sub-B"), ("session_id", "ses-2"),
          ("sex", "F"), ("weight", "60"), ("age", "31")]] := by
  have h := (merge_first_match_update_or_append
      [[("participant_id", "sub-B"), ("session_id", "n/a"),
        ("sex", ""), ("weight", ""), ("age", "")]]
      "sub-B" "ses-2" "F" "60" "31").1
      []
      [("participant_id", "sub-B"), ("session_id", "n/a"),
       ("sex", ""), ("weight", ""), ("age", "")]
      [] rfl (by intro r hr; simp at hr) (by decide)
  rw [h.1]
  decide



/-- C8. extract_fields never propagates a read failure: a file that
pydicom cannot read or decode (the none case of the embedded reader
outcome) yields the sentinel triple for sex, weight and age. -/
theorem extract_fields_read_failure :
    extractFields none = ("n/a", "n/a", "n/a") := rfl

/-- C2. The extracted age string: a present non-empty explicit age
field has a trailing Y/M/D unit stripped and is reformatted through
integer parsing (dropping leading zeros), falling back to the stripped
string when parsing fails; with no explicit age, the age is study year
minus birth year, less one exactly when the study (month, day) pair is
lexicographically below the birth (month, day) pair, for every pair of
dates that strptime("%Y%m%d") parses (all 8-digit dates in particular,
but also the 6- and 7-character dates its regex accepts), and "n/a"
when either date is missing or fails to parse. The parse-success
branches hold for every input; the parse-failure branches carry an
ASCII hypothesis because the embedded int()/strptime are the ASCII
fragment of CPython's, which additionally accepts Unicode decimal
digits. -/
theorem age_extraction (d : Dicom) :
    (∀ astr : String, d.age = some astr → astr ≠ "" →
      (∀ n : Int, pyInt? (stripAgeUnit astr) = some n →
        (extractFields (some d)).2.2 = toString n) ∧
      (isAsciiStr astr = true → pyInt? (stripAgeUnit astr) = none →
        (extractFields (some d)).2.2 = stripAgeUnit astr)) ∧
    ((d.age = none ∨ d.age = some "") →
      (∀ bs ss : String, ∀ yb mb db ys ms ds : Nat,
        d.birthDate = some bs → d.studyDate = some ss →
        parseDateYmd bs = some (yb, mb, db) → parseDateYmd ss = some (ys, ms, ds) →
        (extractFields (some d)).2.2
          = toString ((ys : Int) - (yb : Int) -
              (if ms < mb ∨ (ms = mb ∧ ds < db) then 1 else 0))) ∧
      ((d.birthDate = none ∨ d.studyDate = none ∨
          (∀ bs, d.birthDate = some bs →
            isAsciiStr bs = true ∧ parseDateYmd bs = none) ∨
          (∀ ss, d.studyDate = some ss →
            isAsciiStr ss = true ∧ parseDateYmd ss = none)) →
        (extractFields (some d)).2.2 = "n/a")) := by
  have hc : (extractFields (some d)).2.2 = computeAge d := rfl
  constructor
  · intro astr ha hne
    constructor
    · intro n hp
      rw [hc]
      simp [computeAge, ha, hne, ageFromExplicit, hp]
    · intro _ hp
      rw [hc]
      simp [computeAge, ha, hne, ageFromExplicit, hp]
  · intro hopt
    have hfall : computeAge d =
        match d.studyDate, d.birthDate with
        | some sdt, some bdt => ageFromDates bdt sdt
        | _, _ => "n/a" := by
      rcases hopt with h | h <;> simp [computeAge, h]
    constructor
    · intro bs ss yb mb db ys ms ds hb hs hpb hps
      rw [hc, hfall, hs, hb]
      simp [ageFromDates, hpb, hps]
    · intro hdis
      rw [hc, hfall]
      rcases hdis with h | h | h | h
      · rcases hst : d.studyDate with _ | ss <;> simp [h, hst]
      · simp [h]
      · rcases hbd : d.birthDate with _ | bs
        · rcases hst : d.studyDate with _ | ss <;> simp [hbd, hst]
        · rcases hst : d.studyDate with _ | ss
          · simp [hbd, hst]
          · simp [hbd, hst, ageFromDates, (h bs hbd).2]
      · rcases hst : d.studyDate with _ | ss
        · rcases hbd : d.birthDate with _ | bs <;> simp [hbd, hst]
        · rcases hbd : d.birthDate with _ | bs
          · simp [hbd, hst]
          · simp [hbd, hst, ageFromDates, (h ss hst).2]

/-- C2 witness: the explicit age "034Y" normalizes to "34"; birth
2000-03-15 with study 2024-03-14 gives "23"; a record with no age and
no dates gives "n/a"; the 7-character birth date "2024315" (parsed by
strptime as 2024-03-15) with study 2024-03-14 gives "-1"; and an
unparsable ASCII birth date gives "n/a". -/
theorem age_extraction_inst :
    (extractFields (some (Dicom.mk none none (some "034Y") none none))).2.2 = "34" ∧
    (extractFields (some (Dicom.mk none none none (some "20240314")
        (some "20000315")))).2.2 = "23" ∧
    (extractFields (some (Dicom.mk none none none none none))).2.2 = "n/a" ∧
    (extractFields (some (Dicom.mk none none none (some "20240314")
        (some "2024315")))).2.2 = "-1" ∧
    (extractFields (some (Dicom.mk none none none (some "20240314")
        (some "notadate")))).2.2 = "n/a" := by
  refine ⟨?_, ?_, ?_, ?_, ?_⟩
  · have h := ((age_extraction (Dicom.mk none none (some "034Y") none none)).1
      "034Y" rfl (by decide)).1 34 (by decide)
    rw [h]
    decide
  · have h := ((age_extraction (Dicom.mk none none none (some "20240314")
        (some "20000315"))).2 (Or.inl rfl)).1 "20000315" "20240314"
        2000 3 15 2024 3 14 rfl rfl (by decide) (by decide)
    rw [h]
    decide
  · exact ((age_extraction (Dicom.mk none none none none none)).2
      (Or.inl rfl)).2 (Or.inl rfl)
  · have h := ((age_extraction (Dicom.mk none none none (some "20240314")
        (some "2024315"))).2 (Or.inl rfl)).1 "2024315" "20240314"
        2024 3 15 2024 3 14 rfl rfl (by decide) (by decide)
    rw [h]
    decide
  · exact ((age_extraction (Dicom.mk none none none (some "20240314")
        (some "notadate"))).2 (Or.inl rfl)).2
      (Or.inr (Or.inr (Or.inl (fun bs hb => by
        injection hb with h
        subst h
        exact ⟨by decide, by decide⟩))))


theorem hasFileNamed_append (d e : List FSFile) (n : String) :
    hasFileNamed (d ++ e) n = (hasFileNamed d n || hasFileNamed e n) := by
  simp [hasFileNamed, List.any_append]

theorem copyStep_append (dest src : List FSFile) :
    ∃ added, copyStep dest src = dest ++ added ∧
      ∀ g ∈ added, g ∈ src ∧ hasFileNamed dest g.name = false := by
  induction src generalizing dest with
  | nil => exact ⟨[], by simp [copyStep], by simp⟩
  | cons f fs ih =>
    by_cases h : hasFileNamed dest f.name = true
    · have hstep : copyStep dest (f :: fs) = copyStep dest fs := by
        simp [copyStep, List.foldl_cons, h]
      rcases ih dest with ⟨added, heq, hprop⟩
      exact ⟨added, by rw [hstep, heq], fun g hg =>
        ⟨List.mem_cons_of_mem f (hprop g hg).1, (hprop g hg).2⟩⟩
    · have hf : hasFileNamed dest f.name = false := by
        cases hx : hasFileNamed dest f.name
        · rfl
        · exact absurd hx h
      have hstep : copyStep dest (f :: fs) = copyStep (dest ++ [f]) fs := by
        simp [copyStep, List.foldl_cons, hf]
      rcases ih (dest ++ [f]) with ⟨added, heq, hprop⟩
      refine ⟨f :: added, by rw [hstep, heq, List.append_assoc]; rfl, ?_⟩
      intro g hg
      rcases List.mem_cons.mp hg with hgf | hga
      · exact ⟨by simp [hgf], by rw [hgf]; exact hf⟩
      · refine ⟨List.mem_cons_of_mem f (hprop g hga).1, ?_⟩
        have h2 := (hprop g hga).2
        rw [hasFileNamed_append] at h2
        exact (Bool.or_eq_false_iff.mp h2).1

theorem hasFileNamed_copyStep_mono (dest src : List FSFile) (n : String)
    (h : hasFileNamed dest n = true) : hasFileNamed (copyStep dest src) n = true := by
  rcases copyStep_append dest src with ⟨added, heq, _⟩
  rw [heq, hasFileNamed_append, h, Bool.true_or]

theorem copyStep_names_present (dest src : List FSFile) :
    ∀ f ∈ src, hasFileNamed (copyStep dest src) f.name = true := by
  induction src generalizing dest with
  | nil => intro f hf; cases hf
  | cons g gs ih =>
    intro f hf
    have hstep : ∀ d, copyStep d (g :: gs)
        = copyStep (if hasFileNamed d g.name then d else d ++ [g]) gs := by
      intro d
      by_cases h : hasFileNamed d g.name = true
      · simp [copyStep, List.foldl_cons, h]
      · simp [copyStep, List.foldl_cons, h]
    rcases List.mem_cons.mp hf with hfg | hfs
    · rw [hstep dest]
      apply hasFileNamed_copyStep_mono
      subst hfg
      by_cases h : hasFileNamed dest f.name = true
      · rw [if_pos h]; exact h
      · have hf2 : hasFileNamed dest f.name = false := by
          cases hx : hasFileNamed dest f.name
          · rfl
          · exact absurd hx h
        rw [hf2]
        simp [hasFileNamed_append, hasFileNamed]
    · rw [hstep dest]
      exact ih _ f hfs

theorem copyStep_noop (dest src : List FSFile)
    (h : ∀ f ∈ src, hasFileNamed dest f.name = true) : copyStep dest src = dest := by
  induction src with
  | nil => rfl
  | cons g gs ih =>
    have hg := h g (by simp)
    have : copyStep dest (g :: gs) = copyStep dest gs := by
      simp [copyStep, List.foldl_cons, hg]
    rw [this]
    exact ih (fun f hf => h f (List.mem_cons_of_mem g hf))

theorem lookup_append_of_has (d e : List FSFile) (n : String)
    (h : hasFileNamed d n = true) : lookupFile (d ++ e) n = lookupFile d n := by
  induction d with
  | nil => simp [hasFileNamed] at h
  | cons f fs ih =>
    by_cases hf : (f.name == n) = true
    · simp [lookupFile, List.find?_cons, hf]
    · have hf2 : (f.name == n) = false := by
        cases hx : (f.name == n)
        · rfl
        · exact absurd hx hf
      have h2 : hasFileNamed fs n = true := by
        have := h
        simp [hasFileNamed, hf2] at this
        simpa [hasFileNamed] using this
      have hgoal : lookupFile (f :: (fs ++ e)) n = lookupFile (fs ++ e) n := by
        simp [lookupFile, List.find?_cons, hf2]
      have hgoal2 : lookupFile (f :: fs) n = lookupFile fs n := by
        simp [lookupFile, List.find?_cons, hf2]
      rw [List.cons_append, hgoal, hgoal2]
      exact ih h2

/-- C7. The per-session copy step only adds files whose name is not
yet present at the destination, never touches a pre-existing
destination file (lookup by name is unchanged, content included), and
is idempotent: running it a second time over the same session folder
changes nothing. -/
theorem copy_step_additive_idempotent (dest src : List FSFile) :
    (∀ g ∈ copyStep dest src,
        g ∈ dest ∨ (g ∈ src ∧ hasFileNamed dest g.name = false)) ∧
    (∀ n : String, hasFileNamed dest n = true →
        lookupFile (copyStep dest src) n = lookupFile dest n) ∧
    copyStep (copyStep dest src) src = copyStep dest src := by
  rcases copyStep_append dest src with ⟨added, heq, hprop⟩
  refine ⟨?_, ?_, ?_⟩
  · intro g hg
    rw [heq] at hg
    rcases List.mem_append.mp hg with hgd | hga
    · exact Or.inl hgd
    · exact Or.inr (hprop g hga)
  · intro n hn
    rw [heq]
    exact lookup_append_of_has dest added n hn
  · exact copyStep_noop _ _ (copyStep_names_present dest src)

/-- C7 witness: a destination seeded with a sentinel-content file
keeps that content through the copy step, and a second run is a
no-op. -/
theorem copy_step_additive_idempotent_inst :
    lookupFile (copyStep [FSFile.mk "a.fif" "OLD"]
        [FSFile.mk "a.fif" "NEW", FSFile.mk "b.fif" "B"]) "a.fif"
      = some (FSFile.mk "a.fif" "OLD") ∧
    copyStep (copyStep [FSFile.mk "a.fif" "OLD"]
        [FSFile.mk "a.fif" "NEW", FSFile.mk "b.fif" "B"])
        [FSFile.mk "a.fif" "NEW", FSFile.mk "b.fif" "B"]
      = copyStep [FSFile.mk "a.fif" "OLD"]
        [FSFile.mk "a.fif" "NEW", FSFile.mk "b.fif" "B"] := by
  constructor
  · rw [(copy_step_additive_idempotent [FSFile.mk "a.fif" "OLD"]
      [FSFile.mk "a.fif" "NEW", FSFile.mk "b.fif" "B"]).2.1 "a.fif" (by decide)]
    decide
  · exact (copy_step_additive_idempotent [FSFile.mk "a.fif" "OLD"]
      [FSFile.mk "a.fif" "NEW", FSFile.mk "b.fif" "B"]).2.2


theorem not_prefix_of_missing_char (pat cs : List Char) (x : Char) (hx : x ∈ pat)
    (hcs : x ∉ cs) : ∀ i, pat.isPrefixOf (cs.drop i) = false := by
  intro i
  cases hp : pat.isPrefixOf (cs.drop i)
  · rfl
  · exfalso
    have hpre : pat <+: cs.drop i := by
      rw [← List.isPrefixOf_iff_prefix]
      exact hp
    exact hcs (List.drop_subset i cs (hpre.subset hx))

theorem replFuel_id (pat rep : List Char) :
    ∀ fuel cs, (∀ i, pat.isPrefixOf (cs.drop i) = false) →
      replFuel pat rep fuel cs = cs := by
  intro fuel
  induction fuel with
  | zero =>
    intro cs _
    cases cs <;> rfl
  | succ n ih =>
    intro cs h
    cases cs with
    | nil => rfl
    | cons c cs2 =>
      have h0 : pat.isPrefixOf (c :: cs2) = false := by simpa using h 0
      have hcond : ¬(pat ≠ [] ∧ pat.isPrefixOf (c :: cs2) = true) := by
        intro hc
        rw [h0] at hc
        cases hc.2
      simp only [replFuel, if_neg hcond]
      have := ih cs2 (fun i => by simpa using h (i + 1))
      rw [this]

theorem replFuel_head (pat rep t : List Char) (fuel : Nat) (p0 : Char) (pr : List Char)
    (hpat : pat = p0 :: pr) :
    replFuel pat rep (fuel + 1) (pat ++ t)
      = rep ++ replFuel pat rep fuel t := by
  subst hpat
  have hpre : (p0 :: pr).isPrefixOf (p0 :: pr ++ t) = true := by
    rw [List.isPrefixOf_iff_prefix]
    exact ⟨t, by simp⟩
  have hcond : ((p0 :: pr) ≠ [] ∧ (p0 :: pr).isPrefixOf (p0 :: (pr ++ t)) = true) := by
    constructor
    · simp
    · rw [List.cons_append] at hpre
      exact hpre
  show (if (p0 :: pr) ≠ [] ∧ (p0 :: pr).isPrefixOf (p0 :: (pr ++ t)) = true
      then rep ++ replFuel (p0 :: pr) rep fuel ((pr ++ t).drop ((p0 :: pr).length - 1))
      else p0 :: replFuel (p0 :: pr) rep fuel (pr ++ t)) = rep ++ replFuel (p0 :: pr) rep fuel t
  rw [if_pos hcond]
  have hdrop : (pr ++ t).drop ((p0 :: pr).length - 1) = t := by
    simp [List.drop_left]
  rw [hdrop]

theorem stripSubPrefix_dash (l : List Char) :
    stripSubPrefix ('s' :: 'u' :: 'b' :: '-' :: l) = l := by
  show (if (('s'.toLower = 's' ∧ 'u'.toLower = 'u' ∧ 'b'.toLower = 'b') ∧
      ('-' = '-' ∨ '-' = '_'))
    then l else 's' :: 'u' :: 'b' :: '-' :: l) = l
  rw [if_pos]
  exact ⟨⟨by decide, by decide, by decide⟩, Or.inl rfl⟩

/-- C5 counterexample: on the directory name "sub_BRS0170" the
validation normalization yields "BRS0170" while the copy-path
normalization (which removes underscores first, then looks for the
literal, case-sensitive "sub-"/"sub_") yields "SUBBRS0170"; the two
normalizations are not the same function. -/
theorem normalize_vs_copy_path_counterex :
    normalize_subject_id "sub_BRS0170" = "BRS0170" ∧
    copyPathSubjectId "sub_BRS0170" = "SUBBRS0170" ∧
    copyPathSubjectId "sub_BRS0170" ≠ normalize_subject_id "sub_BRS0170" := by
  refine ⟨by decide, by decide, by decide⟩

/-- C5 as amended. The canonical subject ID of the validation
pre-check is normalize_subject_id (strip a leading case-insensitive
sub- or sub_ prefix, drop remaining separators, upper-case); the copy
path uses a different composition of global replacements, and the two
agree on directory names of the form "sub-" followed by a
separator-free token, though not on all names. -/
theorem normalize_agreement_on_plain_names :
    (∀ t : String, (∀ c ∈ t.data, ¬(c = '-' ∨ c = '_')) →
      copyPathSubjectId ("sub-" ++ t) = normalize_subject_id ("sub-" ++ t)) ∧
    normalize_subject_id "sub-BRS0170" = "BRS0170" ∧
    normalize_subject_id "SUB_brs-0170" = "BRS0170" ∧
    copyPathSubjectId "sub-brs0170" = "BRS0170" := by
  refine ⟨?_, by decide, by decide, by decide⟩
  intro t h
  have hdata : ("sub-" ++ t).data = 's' :: 'u' :: 'b' :: '-' :: t.data := by
    rw [String.data_append]
    rfl
  have hdash : ('-' : Char) ∉ t.data := fun hc => h '-' hc (Or.inl rfl)
  have hus : ('_' : Char) ∉ t.data := fun hc => h '_' hc (Or.inr rfl)
  have husAll : ('_' : Char) ∉ ("sub-" ++ t).data := by
    rw [hdata]
    intro hc
    simp only [List.mem_cons] at hc
    rcases hc with h1 | h1 | h1 | h1 | hc2
    · exact absurd h1 (by decide)
    · exact absurd h1 (by decide)
    · exact absurd h1 (by decide)
    · exact absurd h1 (by decide)
    · exact hus hc2
  have step1 : replaceAll ("sub-" ++ t) "_" "" = "sub-" ++ t := by
    unfold replaceAll replList
    rw [replFuel_id _ _ _ _
      (not_prefix_of_missing_char _ _ '_' (by decide) husAll)]
  have step2 : replaceAll ("sub-" ++ t) "sub-" "" = t := by
    unfold replaceAll replList
    rw [hdata]
    have hlen : ('s' :: 'u' :: 'b' :: '-' :: t.data).length = t.data.length + 3 + 1 := by
      simp
    rw [hlen]
    have hh := replFuel_head ['s', 'u', 'b', '-'] [] t.data (t.data.length + 3)
      's' ['u', 'b', '-'] rfl
    simp only [List.cons_append, List.nil_append] at hh
    rw [hh, replFuel_id _ _ _ _
      (not_prefix_of_missing_char _ _ '-' (by decide) hdash)]
  have step3 : replaceAll t "sub_" "" = t := by
    unfold replaceAll replList
    rw [replFuel_id _ _ _ _
      (not_prefix_of_missing_char _ _ '_' (by decide) hus)]
  rw [copyPathSubjectId, step1, step2, step3]
  unfold normalize_subject_id
  rw [hdata, stripSubPrefix_dash]
  have hfilter : t.data.filter (fun c => !(c == '-' || c == '_')) = t.data := by
    rw [List.filter_eq_self]
    intro c hc
    have := h c hc
    simp only [Bool.not_eq_true']
    cases heq : (c == '-' || c == '_')
    · rfl
    · exfalso
      rcases Bool.or_eq_true_iff.mp heq with h1 | h1
      · exact this (Or.inl (by simpa using h1))
      · exact this (Or.inr (by simpa using h1))
  rw [hfilter]
  rfl

/-- C5 amended-claim witness: the agreement instance at the plain
token "brs0170". -/
theorem normalize_agreement_on_plain_names_inst :
    copyPathSubjectId ("sub-" ++ "brs0170") = normalize_subject_id ("sub-" ++ "brs0170") :=
  normalize_agreement_on_plain_names.1 "brs0170" (by decide)

/-- C3 (evidence of the code defect). pathlib's suffix of a ".fif.gz"
name is just ".gz", so the pre-check's membership test
f.suffix.lower() in [".fif", ".fif.gz"] never fires for compressed
recordings: a subject whose session holds a ".fif.gz" recording that
lacks the canonical subject ID passes the pre-check, and the script
then creates directories, copies the offending file and updates the
participants table instead of skipping the subject. The same offending
name with a plain ".fif" suffix does make the pre-check skip the
subject with no effects at all, as the claim requires. -/
theorem precheck_misses_fifgz :
    pathSuffix "other9999_task-raw.fif.gz" = ".gz" ∧
    containsSub (upperStr (normalize_subject_id "sub-BRS0170")).data
        (upperStr (pathStem "other9999_task-raw.fif.gz")).data = false ∧
    precheckInvalid (SubjectDir.mk "sub-BRS0170"
        [SessionDir.mk "2501"
          [FSFile.mk "sub-brs0170_task1-raw.fif" "good",
           FSFile.mk "other9999_task-raw.fif.gz" "bad"]]) = false ∧
    Effect.copyInto "/data/storage/projects/BrainResilience/meg/raw/sub-BRS0170/ses-202501"
        "other9999_task-raw.fif.gz"
      ∈ runSubject "BrainResilience" false (SubjectDir.mk "sub-BRS0170"
        [SessionDir.mk "2501"
          [FSFile.mk "sub-brs0170_task1-raw.fif" "good",
           FSFile.mk "other9999_task-raw.fif.gz" "bad"]]) ∧
    Effect.updateParticipants "sub-BRS0170" "ses-202501"
      ∈ runSubject "BrainResilience" false (SubjectDir.mk "sub-BRS0170"
        [SessionDir.mk "2501"
          [FSFile.mk "sub-brs0170_task1-raw.fif" "good",
           FSFile.mk "other9999_task-raw.fif.gz" "bad"]]) ∧
    runSubject "BrainResilience" false (SubjectDir.mk "sub-BRS0170"
        [SessionDir.mk "2501"
          [FSFile.mk "sub-brs0170_task1-raw.fif" "good",
           FSFile.mk "other9999_task-raw.fif" "bad"]]) = [] := by
  refine ⟨by decide, by decide, by decide, by decide, by decide, by decide⟩


theorem sep_cases (c : Char) (h : isSep c = true) : c = '-' ∨ c = '_' := by
  unfold isSep at h
  rcases Bool.or_eq_true_iff.mp h with h1 | h1
  · exact Or.inl (by simpa using h1)
  · exact Or.inr (by simpa using h1)

theorem sep_not_alnum (c : Char) (h : isSep c = true) : isAlnumLower c = false := by
  rcases sep_cases c h with h1 | h1 <;> subst h1 <;> decide

theorem sep_not_alpha (c : Char) (h : isSep c = true) : isLowerAlpha c = false := by
  rcases sep_cases c h with h1 | h1 <;> subst h1 <;> decide

theorem sep_not_digit (c : Char) (h : isSep c = true) : isDigitChar c = false := by
  rcases sep_cases c h with h1 | h1 <;> subst h1 <;> decide

theorem digit_not_alpha (c : Char) (h : isDigitChar c = true) : isLowerAlpha c = false := by
  unfold isDigitChar at h
  rw [Bool.and_eq_true] at h
  have h2 : c.toNat ≤ 57 := of_decide_eq_true h.2
  unfold isLowerAlpha
  have h3 : ¬(97 ≤ c.toNat) := by omega
  rw [decide_eq_false h3, Bool.false_and]

theorem alpha_alnum (c : Char) (h : isLowerAlpha c = true) : isAlnumLower c = true := by
  unfold isAlnumLower
  rw [h, Bool.true_or]

theorem digit_alnum (c : Char) (h : isDigitChar c = true) : isAlnumLower c = true := by
  unfold isAlnumLower
  rw [h, Bool.or_true]

theorem alnum_not_sep (c : Char) (h : isAlnumLower c = true) : isSep c = false := by
  unfold isAlnumLower isLowerAlpha isDigitChar at h
  have hne1 : c ≠ '-' := by
    intro he
    subst he
    simp at h
  have hne2 : c ≠ '_' := by
    intro he
    subst he
    simp at h
  unfold isSep
  rw [beq_eq_false_iff_ne.mpr hne1, beq_eq_false_iff_ne.mpr hne2]
  rfl

theorem span_run (p : Char → Bool) (g r : List Char)
    (hg : ∀ c ∈ g, p c = true)
    (hr : ∀ c, r.head? = some c → p c = false) :
    (g ++ r).takeWhile p = g ∧ (g ++ r).dropWhile p = r := by
  induction g with
  | nil =>
    cases r with
    | nil => exact ⟨rfl, rfl⟩
    | cons c r2 =>
      have hc := hr c rfl
      constructor
      · simp [List.takeWhile_cons, hc]
      · simp [List.dropWhile_cons, hc]
  | cons a g2 ih =>
    have ha := hg a (by simp)
    have ih2 := ih (fun c hc => hg c (by simp [hc]))
    constructor
    · simp [List.takeWhile_cons, ha, ih2.1]
    · simp [List.dropWhile_cons, ha, ih2.2]

theorem takeWhile_all (p : Char → Bool) (l : List Char)
    (h : ∀ c ∈ l, p c = true) : l.takeWhile p = l := by
  induction l with
  | nil => rfl
  | cons a l2 ih =>
    have ha := h a (by simp)
    simp [List.takeWhile_cons, ha, ih (fun c hc => h c (by simp [hc]))]

theorem isEmpty_false_of_ne_nil (l : List Char) (h : l ≠ []) : l.isEmpty = false := by
  cases l with
  | nil => exact absurd rfl h
  | cons a t => rfl

theorem matchCore_spec (subj task digits rest : List Char) (s1 s2 : Char)
    (hsubjne : subj ≠ []) (hsubj : ∀ c ∈ subj, isAlnumLower c = true)
    (htaskne : task ≠ []) (htask : ∀ c ∈ task, isLowerAlpha c = true)
    (hdig : ∀ c ∈ digits, isDigitChar c = true)
    (hs1 : isSep s1 = true) (hs2 : isSep s2 = true) :
    matchCore (subj ++ s1 :: (task ++ (digits ++ s2 :: 'r' :: 'a' :: 'w' :: rest)))
      = some (subj, task ++ digits) := by
  have hhead2 : ∀ c, (digits ++ s2 :: 'r' :: 'a' :: 'w' :: rest).head? = some c →
      isLowerAlpha c = false := by
    intro c hc
    cases hd : digits with
    | nil =>
      rw [hd] at hc
      simp only [List.nil_append, List.head?_cons] at hc
      injection hc with h
      subst h
      exact sep_not_alpha s2 hs2
    | cons d ds2 =>
      rw [hd] at hc
      simp only [List.cons_append, List.head?_cons] at hc
      injection hc with h
      subst h
      exact digit_not_alpha d (hdig d (by rw [hd]; exact List.mem_cons_self _ _))
  have hspan1 := span_run isAlnumLower subj
    (s1 :: (task ++ (digits ++ s2 :: 'r' :: 'a' :: 'w' :: rest))) hsubj
    (fun c hc => by
      injection hc with h
      subst h
      exact sep_not_alnum s1 hs1)
  have hspan2 := span_run isLowerAlpha task
    (digits ++ s2 :: 'r' :: 'a' :: 'w' :: rest) htask hhead2
  have hspan3 := span_run isDigitChar digits
    (s2 :: 'r' :: 'a' :: 'w' :: rest) hdig
    (fun c hc => by
      injection hc with h
      subst h
      exact sep_not_digit s2 hs2)
  have hraw : (['r', 'a', 'w'].isPrefixOf ('r' :: 'a' :: 'w' :: rest)) = true := by
    simp [List.isPrefixOf]
  simp only [matchCore, hspan1.1, hspan1.2, isEmpty_false_of_ne_nil subj hsubjne,
    Bool.false_eq_true, if_false, hs1, if_true, hspan2.1, hspan2.2,
    isEmpty_false_of_ne_nil task htaskne, hspan3.1, hspan3.2, hs2, hraw,
    Bool.and_self]


theorem parseRegex_prefix_sep (sep0 s1 s2 : Char) (subj task digits rest : List Char)
    (hsep0 : isSep sep0 = true)
    (hsubjne : subj ≠ []) (hsubj : ∀ c ∈ subj, isAlnumLower c = true)
    (htaskne : task ≠ []) (htask : ∀ c ∈ task, isLowerAlpha c = true)
    (hdig : ∀ c ∈ digits, isDigitChar c = true)
    (hs1 : isSep s1 = true) (hs2 : isSep s2 = true) :
    parseRegex ('s' :: 'u' :: 'b' :: sep0 ::
        (subj ++ s1 :: (task ++ (digits ++ s2 :: 'r' :: 'a' :: 'w' :: rest))))
      = some (subj, task ++ digits) := by
  have hcore := matchCore_spec subj task digits rest s1 s2 hsubjne hsubj htaskne
    htask hdig hs1 hs2
  have hpre : (['s', 'u', 'b'].isPrefixOf ('s' :: 'u' :: 'b' :: sep0 ::
      (subj ++ s1 :: (task ++ (digits ++ s2 :: 'r' :: 'a' :: 'w' :: rest))))) = true := by
    simp [List.isPrefixOf]
  simp only [parseRegex, hpre, if_true, List.drop_succ_cons, List.drop_zero,
    hsep0, hcore]

theorem parseRegex_prefix_nosep (s1 s2 : Char) (subj task digits rest : List Char)
    (hsubjne : subj ≠ []) (hsubj : ∀ c ∈ subj, isAlnumLower c = true)
    (htaskne : task ≠ []) (htask : ∀ c ∈ task, isLowerAlpha c = true)
    (hdig : ∀ c ∈ digits, isDigitChar c = true)
    (hs1 : isSep s1 = true) (hs2 : isSep s2 = true) :
    parseRegex ('s' :: 'u' :: 'b' ::
        (subj ++ s1 :: (task ++ (digits ++ s2 :: 'r' :: 'a' :: 'w' :: rest))))
      = some (subj, task ++ digits) := by
  obtain ⟨a, subj2, rfl⟩ : ∃ a subj2, subj = a :: subj2 := by
    cases subj with
    | nil => exact absurd rfl hsubjne
    | cons a t => exact ⟨a, t, rfl⟩
  have hcore := matchCore_spec (a :: subj2) task digits rest s1 s2 hsubjne hsubj
    htaskne htask hdig hs1 hs2
  have hnsep : isSep a = false := alnum_not_sep a (hsubj a (by simp))
  have hpre : (['s', 'u', 'b'].isPrefixOf ('s' :: 'u' :: 'b' ::
      ((a :: subj2) ++ s1 :: (task ++ (digits ++ s2 :: 'r' :: 'a' :: 'w' :: rest))))) = true := by
    simp [List.isPrefixOf]
  simp only [List.cons_append] at hcore hpre
  simp only [parseRegex, hpre, if_true, List.drop_succ_cons, List.drop_zero,
    List.cons_append, hnsep, Bool.false_eq_true, if_false, hcore]

theorem parseRegex_noprefix (s1 s2 : Char) (subj task digits rest : List Char)
    (hn : (['s', 'u', 'b'].isPrefixOf
        (subj ++ s1 :: (task ++ (digits ++ s2 :: 'r' :: 'a' :: 'w' :: rest)))) = false)
    (hsubjne : subj ≠ []) (hsubj : ∀ c ∈ subj, isAlnumLower c = true)
    (htaskne : task ≠ []) (htask : ∀ c ∈ task, isLowerAlpha c = true)
    (hdig : ∀ c ∈ digits, isDigitChar c = true)
    (hs1 : isSep s1 = true) (hs2 : isSep s2 = true) :
    parseRegex (subj ++ s1 :: (task ++ (digits ++ s2 :: 'r' :: 'a' :: 'w' :: rest)))
      = some (subj, task ++ digits) := by
  have hcore := matchCore_spec subj task digits rest s1 s2 hsubjne hsubj htaskne
    htask hdig hs1 hs2
  simp only [parseRegex, hn, Bool.false_eq_true, if_false, hcore]

theorem splitTaskRun_spec (task digits : List Char) (htaskne : task ≠ [])
    (htask : ∀ c ∈ task, isLowerAlpha c = true)
    (hdig : ∀ c ∈ digits, isDigitChar c = true) :
    splitTaskRun (task ++ digits)
      = some (task, if digits.isEmpty then none else some (natOfDigits digits)) := by
  have hspan := span_run isLowerAlpha task digits htask (by
    intro c hc
    cases hd : digits with
    | nil =>
      rw [hd] at hc
      cases hc
    | cons d ds2 =>
      rw [hd] at hc
      simp only [List.head?_cons] at hc
      injection hc with h
      subst h
      exact digit_not_alpha d (hdig d (by rw [hd]; exact List.mem_cons_self _ _)))
  have hds : digits.takeWhile isDigitChar = digits := takeWhile_all _ _ hdig
  simp only [splitTaskRun, hspan.1, hspan.2, isEmpty_false_of_ne_nil task htaskne,
    Bool.false_eq_true, if_false, hds]

/-- C6 counterexample: the regex makes the separator after the "sub"
prefix optional, so "subx_task-raw.fif" parses with prefix "sub" and
subject token "x"; the claim's grammar (prefix only together with a
separator) would read the subject as "subx" and predict "SUBX". -/
theorem filename_parse_prefix_counterex :
    parseFromFilename "subx_task-raw.fif" = some ("X", ("task", none)) ∧
    parseFromFilename "subx_task-raw.fif" ≠ some ("SUBX", ("task", none)) := by
  refine ⟨by decide, by decide⟩

/-- C6 as amended. The per-file parse maps a lower-cased,
extension-stripped filename of the grammar - optional "sub" prefix
with an OPTIONAL separator (the prefix is consumed whenever the name
starts with "sub"), alphanumeric subject token, separator, alphabetic
task token with optional trailing digits, separator, literal "raw",
arbitrary leftover - to the upper-cased subject, the task, and the
run, the run being absent (not zero) exactly when the task token has
no trailing digits; names not beginning with "sub" parse without the
prefix; and "sub-brs0170_task12-raw.fif" parses to subject "BRS0170",
task "task", run 12. -/
theorem filename_parse_grammar :
    parseFromFilename "sub-brs0170_task12-raw.fif"
      = some ("BRS0170", ("task", some 12)) ∧
    (∀ (sep0 s1 s2 : Char) (subj task digits rest : List Char),
      isSep sep0 = true → subj ≠ [] → (∀ c ∈ subj, isAlnumLower c = true) →
      task ≠ [] → (∀ c ∈ task, isLowerAlpha c = true) →
      (∀ c ∈ digits, isDigitChar c = true) →
      isSep s1 = true → isSep s2 = true →
      parsePrepped ('s' :: 'u' :: 'b' :: sep0 ::
          (subj ++ s1 :: (task ++ (digits ++ s2 :: 'r' :: 'a' :: 'w' :: rest))))
        = some (upperStr (String.mk subj), (String.mk task,
            if digits.isEmpty then none else some (natOfDigits digits)))) ∧
    (∀ (s1 s2 : Char) (subj task digits rest : List Char),
      subj ≠ [] → (∀ c ∈ subj, isAlnumLower c = true) →
      task ≠ [] → (∀ c ∈ task, isLowerAlpha c = true) →
      (∀ c ∈ digits, isDigitChar c = true) →
      isSep s1 = true → isSep s2 = true →
      parsePrepped ('s' :: 'u' :: 'b' ::
          (subj ++ s1 :: (task ++ (digits ++ s2 :: 'r' :: 'a' :: 'w' :: rest))))
        = some (upperStr (String.mk subj), (String.mk task,
            if digits.isEmpty then none else some (natOfDigits digits)))) ∧
    (∀ (s1 s2 : Char) (subj task digits rest : List Char),
      (['s', 'u', 'b'].isPrefixOf
          (subj ++ s1 :: (task ++ (digits ++ s2 :: 'r' :: 'a' :: 'w' :: rest)))) = false →
      subj ≠ [] → (∀ c ∈ subj, isAlnumLower c = true) →
      task ≠ [] → (∀ c ∈ task, isLowerAlpha c = true) →
      (∀ c ∈ digits, isDigitChar c = true) →
      isSep s1 = true → isSep s2 = true →
      parsePrepped (subj ++ s1 :: (task ++ (digits ++ s2 :: 'r' :: 'a' :: 'w' :: rest)))
        = some (upperStr (String.mk subj), (String.mk task,
            if digits.isEmpty then none else some (natOfDigits digits)))) := by
  refine ⟨by decide, ?_, ?_, ?_⟩
  · intro sep0 s1 s2 subj task digits rest hsep0 h1 h2 h3 h4 h5 h6 h7
    have hr := parseRegex_prefix_sep sep0 s1 s2 subj task digits rest hsep0
      h1 h2 h3 h4 h5 h6 h7
    have hs := splitTaskRun_spec task digits h3 h4 h5
    simp only [parsePrepped, hr, hs]
  · intro s1 s2 subj task digits rest h1 h2 h3 h4 h5 h6 h7
    have hr := parseRegex_prefix_nosep s1 s2 subj task digits rest
      h1 h2 h3 h4 h5 h6 h7
    have hs := splitTaskRun_spec task digits h3 h4 h5
    simp only [parsePrepped, hr, hs]
  · intro s1 s2 subj task digits rest hn h1 h2 h3 h4 h5 h6 h7
    have hr := parseRegex_noprefix s1 s2 subj task digits rest hn
      h1 h2 h3 h4 h5 h6 h7
    have hs := splitTaskRun_spec task digits h3 h4 h5
    simp only [parsePrepped, hr, hs]

/-- C6 amended-claim witness: the grammar case applied to the
components of "sub-brs0170_task12-raw". -/
theorem filename_parse_grammar_inst :
    parsePrepped ('s' :: 'u' :: 'b' :: '-' ::
        (['b', 'r', 's', '0', '1', '7', '0'] ++ '_' ::
          (['t', 'a', 's', 'k'] ++ (['1', '2'] ++ '-' :: 'r' :: 'a' :: 'w' :: []))))
      = some ("BRS0170", ("task", some 12)) := by
  have h := filename_parse_grammar.2.1 '-' '_' '-'
    ['b', 'r', 's', '0', '1', '7', '0'] ['t', 'a', 's', 'k'] ['1', '2'] []
    (by decide) (by decide) (by decide) (by decide) (by decide) (by decide)
    (by decide) (by decide)
  rw [h]
  decide


theorem lastParsedSubject_eq (names : List String) :
    ∀ init : String,
      lastParsedSubject init names = (parsedSubjects names).getLastD init := by
  induction names with
  | nil => intro init; rfl
  | cons nm rest ih =>
    intro init
    cases hp : parseRegex (prepFname (lowerStr nm)).data with
    | none =>
      have h1 : lastParsedSubject init (nm :: rest) = lastParsedSubject init rest := by
        simp [lastParsedSubject, List.foldl_cons, hp]
      have h2 : parsedSubjects (nm :: rest) = parsedSubjects rest := by
        simp [parsedSubjects, List.filterMap_cons, hp]
      rw [h1, h2, ih]
    | some g =>
      obtain ⟨g1, g2⟩ := g
      have h1 : lastParsedSubject init (nm :: rest)
          = lastParsedSubject (upperStr (String.mk g1)) rest := by
        simp [lastParsedSubject, List.foldl_cons, hp]
      have h2 : parsedSubjects (nm :: rest)
          = upperStr (String.mk g1) :: parsedSubjects rest := by
        simp [parsedSubjects, List.filterMap_cons, hp]
      rw [h1, h2, ih, List.getLastD_cons]

theorem string_append_left_cancel (a b c : String) (h : a ++ b = a ++ c) : b = c := by
  have hd : (a ++ b).data = (a ++ c).data := congrArg String.data h
  rw [String.data_append, String.data_append] at hd
  exact String.ext (List.append_cancel_left hd)

/-- C4. With conversion enabled, the relocate-output directory and the
participants-update subject argument of a session are built from the
upper-cased subject token of the LAST filename the conversion loop
successfully parsed (the loop variable subject_id is reassigned inside
the loop), not from the directory-name normalization that the raw copy
path uses; whenever the two identifiers differ, those two steps
address a different sub-<ID> folder than the raw-copy step. -/
theorem reloc_participants_follow_last_parsed
    (project dirName : String) (ses : SessionDir) (s : String)
    (hs : (parsedSubjects ((globFif ses.files).map (fun f => f.name))).getLast?
        = some s) :
    (sessionPaths project dirName true ses).participantsSubjectArg = "sub-" ++ s ∧
    (sessionPaths project dirName true ses).relocSubjSesDir
      = "/data/storage/projects/" ++ project ++ "/meg/reconstructed/sub-" ++ s
        ++ "/ses-" ++ ("20" ++ ses.name) ∧
    (sessionPaths project dirName true ses).rawSubjSesDir
      = "/data/storage/projects/" ++ project ++ "/meg/raw/sub-"
        ++ copyPathSubjectId dirName ++ "/ses-" ++ ("20" ++ ses.name) ∧
    (s ≠ copyPathSubjectId dirName →
      (sessionPaths project dirName true ses).participantsSubjectArg
        ≠ "sub-" ++ copyPathSubjectId dirName) := by
  have hfinal : lastParsedSubject (copyPathSubjectId dirName)
      ((globFif ses.files).map (fun f => f.name)) = s := by
    rw [lastParsedSubject_eq, List.getLastD_eq_getLast?, hs]
    rfl
  refine ⟨?_, ?_, ?_, ?_⟩
  · simp [sessionPaths, hfinal]
  · simp [sessionPaths, hfinal]
  · simp [sessionPaths]
  · intro hne heq
    have h1 : (sessionPaths project dirName true ses).participantsSubjectArg
        = "sub-" ++ s := by simp [sessionPaths, hfinal]
    rw [h1] at heq
    exact hne (string_append_left_cancel "sub-" s (copyPathSubjectId dirName) heq)

/-- C4 witness: a session whose only recording parses to subject token
"XYZ9" while the directory name normalizes to "BRS0170": relocation
and participants update address sub-XYZ9, the raw copy sub-BRS0170. -/
theorem reloc_participants_follow_last_parsed_inst :
    (sessionPaths "P" "sub-BRS0170" true
        (SessionDir.mk "2501" [FSFile.mk "sub-xyz9_task2-raw.fif" "c"])).participantsSubjectArg
      = "sub-" ++ "XYZ9" ∧
    (sessionPaths "P" "sub-BRS0170" true
        (SessionDir.mk "2501" [FSFile.mk "sub-xyz9_task2-raw.fif" "c"])).participantsSubjectArg
      ≠ "sub-" ++ copyPathSubjectId "sub-BRS0170" := by
  constructor
  · exact (reloc_participants_follow_last_parsed "P" "sub-BRS0170"
      (SessionDir.mk "2501" [FSFile.mk "sub-xyz9_task2-raw.fif" "c"]) "XYZ9"
      (by decide)).1
  · exact (reloc_participants_follow_last_parsed "P" "sub-BRS0170"
      (SessionDir.mk "2501" [FSFile.mk "sub-xyz9_task2-raw.fif" "c"]) "XYZ9"
      (by decide)).2.2.2 (by decide)

end ImageTech
